import Mathlib

/-
Verification of the reconciliation engine of Obsidian-Google-Drive
(src/helpers/push.ts) against its natural-language specification.

The TypeScript source is shallowly embedded as executable Lean functions.
JavaScript objects (string-keyed maps) are embedded as association lists
with JS semantics: assignment updates the existing key in place or appends,
`Object.fromEntries` deduplicates with last-value-wins at first-insertion
position, `delete` removes the key.  Asynchronous batched execution
(`batchAsyncs`, `Promise.all`) is serialized in list order: the engine runs
a single logical session and the claims under study are insensitive to the
interleaving within a batch, so this fixes one of the schedules the
concurrency batcher may realize.  Remote calls are resolved by an explicit
oracle; each call is recorded in an event trace.
-/

namespace GDrive

/-- JS object lookup: value at key `k`, or `none` when the key is absent. -/
def objGet {β : Type} : List (String × β) → String → Option β
  | [], _ => none
  | (k2, v2) :: rest, k => if k2 == k then some v2 else objGet rest k

/-- JS object assignment `o[k] = v`: updates the existing key in place or
appends a new entry at the end. -/
def objSet {β : Type} : List (String × β) → String → β → List (String × β)
  | [], k, v => [(k, v)]
  | (k2, v2) :: rest, k, v =>
    if k2 == k then (k, v) :: rest else (k2, v2) :: objSet rest k v

/-- JS `delete o[k]`: removes the entry stored at key `k`. -/
def objDel {β : Type} (l : List (String × β)) (k : String) : List (String × β) :=
  l.filter (fun p => !(p.1 == k))

/-- JS `Object.fromEntries`: builds an object from a key/value list,
later entries overwriting earlier ones. -/
def fromEntries {β : Type} (l : List (String × β)) : List (String × β) :=
  l.foldl (fun acc p => objSet acc p.1 p.2) []

/-- The three journaled operation kinds of `t.settings.operations`. -/
inductive Op where
  | create
  | delete
  | modify
deriving DecidableEq, BEq, Repr

/-- The persisted plugin settings: the Remote Identity Index
(`driveIdToPath`, remote id to local path) and the Change Journal
(`operations`, local path to pending operation kind). -/
structure Settings where
  driveIdToPath : List (String × String)
  operations : List (String × Op)
deriving DecidableEq, Repr

/-- A node of the local vault as the Obsidian API exposes it: a `TFolder`
(name and parent folder path) or a `TFile` (name, parent folder path and
binary content). -/
inductive VNode where
  | folder (name : String) (parentPath : Option String)
  | file (name : String) (parentPath : Option String) (content : String)
deriving DecidableEq, Repr

/-- The local vault: path-indexed nodes plus the configuration directory
(`vault.configDir`). -/
structure Vault where
  nodes : List (String × VNode)
  configDir : String

/-- `vault.getAbstractFileByPath` / `adapter.exists`: the node stored at a
path, if any. -/
def Vault.lookup (v : Vault) (p : String) : Option VNode :=
  objGet v.nodes p

/-- The data of a local `TFolder` needed by the create phase. -/
structure VFolder where
  path : String
  name : String
  parentPath : Option String
deriving DecidableEq, Repr

/-- The data of a local `TFile` needed by the create and modify phases. -/
structure VFile where
  path : String
  name : String
  parentPath : Option String
  content : String
deriving DecidableEq, Repr

/-- A remote object as returned by `drive.searchFiles`: its id, MIME type,
the logical path stored in its `properties`, and its modification time. -/
structure RemoteFile where
  id : String
  mimeType : String
  propPath : String
  modifiedTime : String
deriving DecidableEq, Repr

/-- One observable step of a run: a remote call, a local mutation performed
by the undo handlers, or a user-visible notice. -/
inductive Event where
  | pullEv
  | searchConfigEv
  | batchDeleteEv (ids : List (Option String))
  | createFolderEv (path : String) (parentId : Option String)
  | uploadFileEv (path : String) (parentId : Option String)
  | updateFileEv (id : Option String)
  | persistEv (id : Option String) (settings : Settings)
  | noticeEv (msg : String)
  | searchPathsEv (paths : List String)
  | fetchContentEv (id : Option String)
  | localCreateFolderEv (path : String)
  | localCreateFileEv (path : String) (content : Option String)
      (modifiedTime : Option String)
  | localDeleteEv (path : String)
deriving DecidableEq, Repr

/-- The responses of the external collaborators during one run: the result
of each remote call, keyed by the request data, plus the effect of the pull
collaborator on the Remote Identity Index. -/
structure Oracle where
  pullIdToPath : List (String × String) → List (String × String)
  configSearch : Option (List String)
  batchDeleteOk : Bool
  createFolderId : String → Option String
  uploadFileId : String → Option String
  updateFileRes : Option String → Option String
  searchByPaths : List String → Option (List RemoteFile)
  fetchContent : Option String → Option String

/-- The plugin state visible to `push`: the session flag `t.syncing` and
the persisted settings. -/
structure PluginState where
  syncing : Bool
  settings : Settings
deriving DecidableEq, Repr

/-- The outcome of one `push` run: the final plugin state and the trace of
observable events in execution order. -/
structure RunResult where
  state : PluginState
  events : List Event
deriving DecidableEq, Repr

/-- `folderMimeType` from helpers/drive.ts: the remote MIME type marking a
container object. -/
def folderMimeType : String := "application/vnd.google-apps.folder"

/-- `creates.map(getAbstractFileByPath).filter(f => f instanceof TFolder)`:
the journaled paths that currently hold a folder in the vault, in order. -/
def vfoldersOf (v : Vault) : List String → List VFolder
  | [] => []
  | p :: rest =>
    match Vault.lookup v p with
    | some (VNode.folder name pp) => ⟨p, name, pp⟩ :: vfoldersOf v rest
    | _ => vfoldersOf v rest

/-- `paths.map(getAbstractFileByPath).filter(f => f instanceof TFile)` (and
equally `getFileByPath` with a file filter): the journaled paths that
currently hold a file in the vault, in order. -/
def vfilesOf (v : Vault) : List String → List VFile
  | [] => []
  | p :: rest =>
    match Vault.lookup v p with
    | some (VNode.file name pp c) => ⟨p, name, pp, c⟩ :: vfilesOf v rest
    | _ => vfilesOf v rest

/-- Largest element of a list of naturals, 0 for the empty list. -/
def maxUnder : List Nat → Nat
  | [] => 0
  | n :: rest => max n (maxUnder rest)

/-- Depth of a folder relative to the operation set: number of ancestors
reachable inside the set through `parentPath`, computed with fuel bounded
by the set size. -/
def relDepthFuel (fs : List VFolder) : Nat → VFolder → Nat
  | 0, _ => 0
  | n + 1, f =>
    match f.parentPath with
    | none => 0
    | some pp =>
      match fs.find? (fun g => g.path == pp) with
      | none => 0
      | some g => relDepthFuel fs n g + 1

/-- Depth of a folder relative to the operation set (§4.2: a node whose
parent is not in the set has relative depth 0). -/
def relDepth (fs : List VFolder) (f : VFolder) : Nat :=
  relDepthFuel fs fs.length f

/-- Modelled from the spec: `foldersToBatches` (the Hierarchy Batcher of
helpers/drive.ts, which is not under src/). Per §4.2 it partitions the
folders into ordered batches where batch i holds exactly the nodes at
relative depth i, root-most first. -/
def foldersToBatches (fs : List VFolder) : List (List VFolder) :=
  (List.range (maxUnder (fs.map (relDepth fs)) + 1)).map
    (fun i => fs.filter (fun f => relDepth fs f == i))

/-- Parent path of a path string: everything before the final slash. -/
def parentOfPath (p : String) : Option String :=
  let parts := p.splitOn "/"
  if parts.length ≤ 1 then none
  else some (String.intercalate "/" parts.dropLast)

/-- Depth of a path relative to a path set, through `parentOfPath`, with
fuel bounded by the set size. -/
def pathDepthFuel (ps : List String) : Nat → String → Nat
  | 0, _ => 0
  | n + 1, p =>
    match parentOfPath p with
    | none => 0
    | some q => if ps.contains q then pathDepthFuel ps n q + 1 else 0

/-- Depth of a path relative to a path set. -/
def pathDepth (ps : List String) (p : String) : Nat :=
  pathDepthFuel ps ps.length p

/-- Modelled from the spec: the Hierarchy Batcher of helpers/drive.ts (not
under src/) as applied by `ConfirmUndoModal.handleDelete` to plain path
strings: batch i holds exactly the paths at relative depth i, root-most
first (§4.2, §4.5). -/
def pathBatches (ps : List String) : List (List String) :=
  (List.range (maxUnder (ps.map (pathDepth ps)) + 1)).map
    (fun i => ps.filter (fun p => pathDepth ps p == i))

/-- One folder batch of the create phase (push.ts lines 192-214): each
parent id of each folder is looked up in the current `pathsToIds`, the remote
`createFolder` call is issued, and on success the new id is recorded in
both `driveIdToPath` and `pathsToIds` before the next folder runs; a failed
call raises a notice and the batch continues.  The state is the pair
(driveIdToPath, pathsToIds). -/
def runFolderBatch (o : Oracle) :
    List VFolder → (List (String × String)) × (List (String × String)) →
    ((List (String × String)) × (List (String × String))) × List Event
  | [], st => (st, [])
  | f :: rest, st =>
    let parentId := f.parentPath.bind (fun pp => objGet st.2 pp)
    match o.createFolderId f.path with
    | none =>
      let r := runFolderBatch o rest st
      (r.1, Event.createFolderEv f.path parentId ::
            Event.noticeEv "Error creating folders." :: r.2)
    | some id =>
      let r := runFolderBatch o rest (objSet st.1 id f.path, objSet st.2 f.path id)
      (r.1, Event.createFolderEv f.path parentId :: r.2)

/-- The folder batches of the create phase, executed strictly sequentially
(push.ts lines 190-215: `for (const batch of batches) await ...`), each
batch starting from the state left by the previous one. -/
def folderPhase (o : Oracle) :
    List (List VFolder) → (List (String × String)) × (List (String × String)) →
    ((List (String × String)) × (List (String × String))) × List Event
  | [], st => (st, [])
  | b :: bs, st =>
    let r1 := runFolderBatch o b st
    let r2 := folderPhase o bs r1.1
    (r2.1, r1.2 ++ r2.2)

/-- The leaf uploads of the create phase (push.ts lines 217-237): each
parent id of each note is looked up in the (now final) `pathsToIds`, the upload
is issued, and on success the id is recorded in `driveIdToPath` only; a
failed upload raises a notice and the rest continue. -/
def runNotes (o : Oracle) (pti : List (String × String)) :
    List VFile → List (String × String) →
    (List (String × String)) × List Event
  | [], dip => (dip, [])
  | n :: rest, dip =>
    let parentId := n.parentPath.bind (fun pp => objGet pti pp)
    match o.uploadFileId n.path with
    | none =>
      let r := runNotes o pti rest dip
      (r.1, Event.uploadFileEv n.path parentId ::
            Event.noticeEv "Error uploading file." :: r.2)
    | some id =>
      let r := runNotes o pti rest (objSet dip id n.path)
      (r.1, Event.uploadFileEv n.path parentId :: r.2)

/-- The create phase (push.ts lines 180-238): journaled creates are split
into the folders and files currently present in the vault; folders go
through the Hierarchy Batcher and are created batch by batch, then the
files are uploaded against the final `pathsToIds`.  Returns the updated
(driveIdToPath, pathsToIds) and the phase trace. -/
def createPhase (o : Oracle) (v : Vault) (creates : List (String × Op))
    (dip pti : List (String × String)) :
    ((List (String × String)) × (List (String × String))) × List Event :=
  if creates.isEmpty then ((dip, pti), [])
  else
    let folders := vfoldersOf v (creates.map Prod.fst)
    let fRes := folderPhase o (foldersToBatches folders) (dip, pti)
    let notes := vfilesOf v (creates.map Prod.fst)
    let nRes := runNotes o fRes.1.2 notes fRes.1.1
    ((nRes.1, fRes.1.2), fRes.2 ++ nRes.2)

/-- The update calls of the modify phase (push.ts lines 253-266): each
id of each file is looked up in `pathToId` and passed to `updateFile`; a failed
update raises a notice and the rest continue.  No local state is written. -/
def runModifies (o : Oracle) (pathToId : List (String × String)) :
    List VFile → List (String × String) →
    (List (String × String)) × List Event
  | [], dip => (dip, [])
  | f :: rest, dip =>
    let id := objGet pathToId f.path
    match o.updateFileRes id with
    | none =>
      let r := runModifies o pathToId rest dip
      (r.1, Event.updateFileEv id ::
            Event.noticeEv "Error modifying file." :: r.2)
    | some _ =>
      let r := runModifies o pathToId rest dip
      (r.1, Event.updateFileEv id :: r.2)

/-- The modify phase (push.ts lines 240-267): the journaled modify paths
still holding a file in the vault are updated remotely, ids resolved
through a fresh path-to-id inversion of `driveIdToPath`. -/
def modifyPhase (o : Oracle) (v : Vault) (modifies : List (String × Op))
    (dip : List (String × String)) :
    (List (String × String)) × List Event :=
  let pathToId := fromEntries (dip.map (fun p => (p.2, p.1)))
  runModifies o pathToId (vfilesOf v (modifies.map Prod.fst)) dip

/-- The journaled deletes (push.ts line 144). -/
def journalDeletes (s : Settings) : List (String × Op) :=
  s.operations.filter (fun p => p.2 == Op.delete)

/-- The opportunistic config deletes (push.ts lines 160-166): every remote
config-tagged path whose local counterpart no longer exists is folded into
the delete batch. -/
def configDeletes (v : Vault) (cfg : List String) : List (String × Op) :=
  (cfg.filter (fun p => (Vault.lookup v p).isNone)).map (fun p => (p, Op.delete))

/-- The full delete set of a run: journaled deletes plus config deletes. -/
def allDeletes (v : Vault) (s : Settings) (cfg : List String) :
    List (String × Op) :=
  journalDeletes s ++ configDeletes v cfg

/-- The derived path-to-id inversion of the Remote Identity Index
(push.ts lines 148-150). -/
def pathsToIdsOf (s : Settings) : List (String × String) :=
  fromEntries (s.driveIdToPath.map (fun p => (p.2, p.1)))

/-- Modelled from the spec: `pull(t, true)` (helpers/pull.ts, not under
src/).  Per §6 it merges remote-side changes into local state before the
phases run; per §3 the Change Journal is inserted into only by the
filesystem watcher and cleared only by a successful push, so pull leaves
`operations` untouched while its effect on the Remote Identity Index is an
arbitrary oracle function. -/
def postPull (o : Oracle) (s : Settings) : Settings :=
  { s with driveIdToPath := o.pullIdToPath s.driveIdToPath }

/-- The two early-abort conditions of a run that has started its session:
the config search fails, or the delete set is nonempty and the bulk delete
fails (push.ts lines 156-158 and 172-174). -/
def abortsEarly (o : Oracle) (v : Vault) (s : Settings) : Bool :=
  match o.configSearch with
  | none => true
  | some cfg => !(allDeletes v s cfg).isEmpty && !o.batchDeleteOk

/-- The tail of a run that survived the delete phase (push.ts lines
178-277): create phase, modify phase, persist of the settings blob (result
unchecked), journal clear and session end. -/
def pushRest (o : Oracle) (v : Vault) (ops : List (String × Op))
    (dip pti : List (String × String)) (dEvs : List Event) : RunResult :=
  let creates := ops.filter (fun p => p.2 == Op.create)
  let modifies := ops.filter (fun p => p.2 == Op.modify)
  let cRes := createPhase o v creates dip pti
  let mRes := modifyPhase o v modifies cRes.1.1
  let s3 : Settings := ⟨mRes.1, ops⟩
  let pid := objGet cRes.1.2 (v.configDir ++ "/plugins/google-drive-sync/data.json")
  ⟨⟨false, ⟨mRes.1, []⟩⟩,
    Event.pullEv :: Event.searchConfigEv ::
      (dEvs ++ (cRes.2 ++ (mRes.2 ++
        [Event.persistEv pid s3, Event.noticeEv "Sync complete!"])))⟩

/-- The Push Orchestrator `push` (push.ts lines 125-278).  The confirmation
gate is hard-wired to proceed (lines 135-137).  `startSync` and `endSync`
(main.ts, not under src/) are modelled from the spec (§3) as setting and
clearing the session flag.  The two remote failures checked by the source
abort the run with a notice, leaving the flag set and the journal intact;
a completed run clears the journal after the persist call, whose result the
source never checks. -/
def push (o : Oracle) (v : Vault) (t : PluginState) : RunResult :=
  if t.syncing then ⟨t, []⟩
  else
    let s0 := postPull o t.settings
    let pti := pathsToIdsOf s0
    match o.configSearch with
    | none =>
      ⟨⟨true, s0⟩,
        [Event.pullEv, Event.searchConfigEv,
         Event.noticeEv "An error occurred fetching Google Drive files."]⟩
    | some cfg =>
      let deletes := allDeletes v s0 cfg
      if deletes.isEmpty then
        pushRest o v s0.operations s0.driveIdToPath pti []
      else if o.batchDeleteOk then
        pushRest o v s0.operations
          (deletes.foldl (fun m d => objDel m d.1) s0.driveIdToPath) pti
          [Event.batchDeleteEv (deletes.map (fun d => objGet pti d.1))]
      else
        ⟨⟨true, s0⟩,
          [Event.pullEv, Event.searchConfigEv,
           Event.batchDeleteEv (deletes.map (fun d => objGet pti d.1)),
           Event.noticeEv "An error occurred deleting Google Drive files."]⟩

/-- `ConfirmUndoModal.filePathToId` (push.ts lines 41-46): the path-to-id
inversion the undo modal derives from the Index. -/
def undoFilePathToId (s : Settings) : List (String × String) :=
  fromEntries (s.driveIdToPath.map (fun p => (p.2, p.1)))

/-- `ConfirmUndoModal.handleCreate` (push.ts lines 104-108): the inverse of
a create deletes the local node, and is a no-op when the node is absent. -/
def handleCreate (v : Vault) (path : String) : List Event :=
  match Vault.lookup v path with
  | none => []
  | some _ => [Event.localDeleteEv path]

/-- `ConfirmUndoModal.handleDelete` (push.ts lines 55-102): the batch
inverse of deletes.  The fetched remote objects are keyed by their path
property; the folder/file split compares `properties.path` with
`folderMimeType` exactly as the source does; folders are recreated locally
batch by batch, then each remaining path has its remote content fetched
and a local file recreated with the remote modification time.  (In JS a
path absent from the fetched objects would throw on field access; the
total lookup of the embedding is only relied on where every path is present.) -/
def handleDelete (o : Oracle) (s : Settings) (paths : List String) :
    List Event :=
  match o.searchByPaths paths with
  | none =>
    [Event.searchPathsEv paths,
     Event.noticeEv "An error occurred fetching Google Drive files."]
  | some files =>
    let pathToFile := fromEntries (files.map (fun f => (f.propPath, f)))
    let deletedFolders := paths.filter
      (fun p => ((objGet pathToFile p).map RemoteFile.propPath) == some folderMimeType)
    let folderEvs := (pathBatches deletedFolders).foldl
      (fun evs batch => evs ++ batch.map (fun p => Event.localCreateFolderEv p)) []
    let deletedFiles := paths.filter
      (fun p => !(((objGet pathToFile p).map RemoteFile.propPath) == some folderMimeType))
    let fpti := undoFilePathToId s
    let fileEvs := deletedFiles.foldl
      (fun evs p =>
        let id := objGet fpti p
        match o.fetchContent id with
        | none =>
          evs ++ [Event.fetchContentEv id,
                  Event.noticeEv "An error occurred fetching Google Drive files."]
        | some content =>
          evs ++ [Event.fetchContentEv id,
                  Event.localCreateFileEv p (some content)
                    ((objGet pathToFile p).map RemoteFile.modifiedTime)]) []
    [Event.searchPathsEv paths] ++ folderEvs ++ fileEvs

/-- Events a delete phase may emit: the config search, the bulk delete
call, and notices. -/
def isDeletePhaseEv (e : Event) : Prop :=
  e = Event.searchConfigEv ∨ (∃ ids, e = Event.batchDeleteEv ids) ∨
    ∃ m, e = Event.noticeEv m

/-- Events a create phase may emit: folder creations, file uploads, and
notices. -/
def isCreatePhaseEv (e : Event) : Prop :=
  (∃ p pid, e = Event.createFolderEv p pid) ∨
    (∃ p pid, e = Event.uploadFileEv p pid) ∨ ∃ m, e = Event.noticeEv m

/-- Events a modify phase may emit: update calls and notices. -/
def isModifyPhaseEv (e : Event) : Prop :=
  (∃ i, e = Event.updateFileEv i) ∨ ∃ m, e = Event.noticeEv m

/-- Events the completion step may emit: the persist call and notices. -/
def isPersistPhaseEv (e : Event) : Prop :=
  (∃ i s, e = Event.persistEv i s) ∨ ∃ m, e = Event.noticeEv m

/-- Events a folder batch may emit: folder creations and their failure
notice. -/
def isFolderStepEv (e : Event) : Prop :=
  (∃ p pid, e = Event.createFolderEv p pid) ∨
    e = Event.noticeEv "Error creating folders."

/-- Events the leaf uploads may emit: file uploads and their failure
notice. -/
def isUploadStepEv (e : Event) : Prop :=
  (∃ p pid, e = Event.uploadFileEv p pid) ∨
    e = Event.noticeEv "Error uploading file."

/-- An oracle whose remote calls all succeed with path-derived ids, used
for concrete runs. -/
def oracleOK : Oracle where
  pullIdToPath := fun l => l
  configSearch := some []
  batchDeleteOk := true
  createFolderId := fun p => some ("fid-" ++ p)
  uploadFileId := fun p => some ("nid-" ++ p)
  updateFileRes := fun _ => some "ok"
  searchByPaths := fun _ => none
  fetchContent := fun _ => none

/-- An oracle whose config search fails. -/
def oracleNoCfg : Oracle where
  pullIdToPath := fun l => l
  configSearch := none
  batchDeleteOk := true
  createFolderId := fun _ => none
  uploadFileId := fun _ => none
  updateFileRes := fun _ => none
  searchByPaths := fun _ => none
  fetchContent := fun _ => none

/-- An oracle whose update calls (including the final persist) all fail
while everything else succeeds. -/
def oracleUpdateFail : Oracle where
  pullIdToPath := fun l => l
  configSearch := some []
  batchDeleteOk := true
  createFolderId := fun _ => none
  uploadFileId := fun _ => none
  updateFileRes := fun _ => none
  searchByPaths := fun _ => none
  fetchContent := fun _ => none

/-- The oracle for the undo-of-delete scenario: the remote object at path
`dir` is a container (its MIME type is `folderMimeType`) and its content
fetch succeeds. -/
def oracleUndoDir : Oracle where
  pullIdToPath := fun l => l
  configSearch := some []
  batchDeleteOk := true
  createFolderId := fun _ => none
  uploadFileId := fun _ => none
  updateFileRes := fun _ => none
  searchByPaths := fun ps =>
    if ps == ["dir"] then some [⟨"fid", folderMimeType, "dir", "T1"⟩] else none
  fetchContent := fun i => if i == some "fid" then some "folder-bytes" else none

/-- An empty vault with the default configuration directory. -/
def vaultEmpty : Vault := ⟨[], ".obsidian"⟩

/-- A vault holding the single file `a.md`. -/
def vaultA : Vault := ⟨[("a.md", VNode.file "a.md" none "body-a")], ".obsidian"⟩

/-- A vault holding the folder `dir` and the file `dir/n.md` inside it. -/
def vaultDir : Vault :=
  ⟨[("dir", VNode.folder "dir" none),
    ("dir/n.md", VNode.file "n.md" (some "dir") "body-n")], ".obsidian"⟩

/-- A state whose journal holds one pending modify of `a.md`, with the
Index knowing `a.md` under the remote id `idA`. -/
def stateModA : PluginState :=
  ⟨false, ⟨[("idA", "a.md")], [("a.md", Op.modify)]⟩⟩

/-- A state whose journal holds one pending delete of `a.md`, with the
Index knowing `a.md` under the remote id `id1`. -/
def stateDelA : PluginState :=
  ⟨false, ⟨[("id1", "a.md")], [("a.md", Op.delete)]⟩⟩

/-- A state whose journal holds one pending delete of `b.md` that the
Index cannot resolve to any remote id. -/
def stateDelUnresolved : PluginState :=
  ⟨false, ⟨[], [("b.md", Op.delete)]⟩⟩

/-- A state whose journal holds pending creates of `dir` and `dir/n.md`. -/
def stateCreateDir : PluginState :=
  ⟨false, ⟨[], [("dir", Op.create), ("dir/n.md", Op.create)]⟩⟩

/-- The Index of the undo-of-delete scenario: `dir` is known remotely
under the id `fid`. -/
def settingsUndoDir : Settings := ⟨[("fid", "dir")], []⟩

theorem objGet_objSet_self {β : Type} (l : List (String × β)) (k : String) (v : β) :
    objGet (objSet l k v) k = some v := by
  induction l with
  | nil => simp [objSet, objGet]
  | cons hd tl ih =>
    by_cases h : hd.1 == k
    · simp [objSet, objGet, h]
    · simpa [objSet, objGet, h] using ih

theorem objGet_objSet_ne {β : Type} (l : List (String × β)) (k k2 : String) (v : β)
    (h : k2 ≠ k) : objGet (objSet l k v) k2 = objGet l k2 := by
  induction l with
  | nil =>
    simp only [objSet, objGet]
    have : (k == k2) = false := by simpa [beq_iff_eq] using fun e => h e.symm
    simp [this]
  | cons hd tl ih =>
    by_cases h1 : hd.1 == k
    · have hk : hd.1 = k := by simpa [beq_iff_eq] using h1
      have hne : ¬ hd.1 = k2 := by
        rw [hk]
        exact fun e => h e.symm
      simp [objSet, objGet, h1, hne]
      exact fun e => absurd e.symm h
    · by_cases h2 : hd.1 == k2
      · simp [objSet, objGet, h1, h2]
      · simpa [objSet, objGet, h1, h2] using ih

theorem maxUnder_le_of_mem {l : List Nat} {x : Nat} (h : x ∈ l) :
    x ≤ maxUnder l := by
  induction l with
  | nil => cases h
  | cons hd tl ih =>
    rcases List.mem_cons.mp h with h1 | h1
    · simp [maxUnder, h1]
    · exact le_trans (ih h1) (le_max_right _ _)

theorem exists_batch_of_mem {fs : List VFolder} {f : VFolder} (h : f ∈ fs) :
    ∃ b, b ∈ foldersToBatches fs ∧ f ∈ b := by
  refine ⟨fs.filter (fun g => relDepth fs g == relDepth fs f), ?_, ?_⟩
  · have hle : relDepth fs f ≤ maxUnder (fs.map (relDepth fs)) :=
      maxUnder_le_of_mem (List.mem_map.mpr ⟨f, h, rfl⟩)
    exact List.mem_map.mpr ⟨relDepth fs f,
      List.mem_range.mpr (Nat.lt_succ_of_le hle), rfl⟩
  · exact List.mem_filter.mpr ⟨h, by simp⟩

theorem relDepth_of_mem_batch {fs : List VFolder} {i : Nat} {b : List VFolder}
    (hb : (foldersToBatches fs)[i]? = some b) {f : VFolder} (hf : f ∈ b) :
    relDepth fs f = i := by
  unfold foldersToBatches at hb
  rcases List.getElem?_eq_some_iff.mp hb with ⟨hi, he⟩
  rw [List.getElem_map, List.getElem_range] at he
  subst he
  simpa using (List.mem_filter.mp hf).2

theorem runFolderBatch_keep (o : Oracle) (b : List VFolder)
    (st : (List (String × String)) × (List (String × String)))
    (p id : String) (h1 : o.createFolderId p = some id)
    (h2 : objGet st.2 p = some id) :
    objGet (runFolderBatch o b st).1.2 p = some id := by
  induction b generalizing st with
  | nil => simpa [runFolderBatch] using h2
  | cons f rest ih =>
    rcases h : o.createFolderId f.path with _ | id2
    · simp only [runFolderBatch, h]
      exact ih st h2
    · simp only [runFolderBatch, h]
      apply ih
      by_cases hp : p = f.path
      · have : id2 = id := by
          have h3 := h1
          rw [hp, h] at h3
          exact Option.some.inj h3
        rw [← hp, this]
        exact objGet_objSet_self _ _ _
      · rw [objGet_objSet_ne _ _ _ _ hp]
        exact h2

theorem runFolderBatch_record (o : Oracle) (b : List VFolder)
    (st : (List (String × String)) × (List (String × String)))
    (f : VFolder) (hf : f ∈ b) (id : String)
    (h : o.createFolderId f.path = some id) :
    objGet (runFolderBatch o b st).1.2 f.path = some id := by
  induction b generalizing st with
  | nil => cases hf
  | cons g rest ih =>
    rcases List.mem_cons.mp hf with h1 | h1
    · subst h1
      simp only [runFolderBatch, h]
      exact runFolderBatch_keep o rest _ _ _ h (objGet_objSet_self _ _ _)
    · rcases hg : o.createFolderId g.path with _ | id2
      · simp only [runFolderBatch, hg]
        exact ih st h1
      · simp only [runFolderBatch, hg]
        exact ih _ h1

theorem folderPhase_keep (o : Oracle) (bs : List (List VFolder))
    (st : (List (String × String)) × (List (String × String)))
    (p id : String) (h1 : o.createFolderId p = some id)
    (h2 : objGet st.2 p = some id) :
    objGet (folderPhase o bs st).1.2 p = some id := by
  induction bs generalizing st with
  | nil => simpa [folderPhase] using h2
  | cons b rest ih =>
    simp only [folderPhase]
    exact ih _ (runFolderBatch_keep o b st p id h1 h2)

theorem folderPhase_record (o : Oracle) (bs : List (List VFolder))
    (st : (List (String × String)) × (List (String × String)))
    (f : VFolder) (hb : ∃ b, b ∈ bs ∧ f ∈ b) (id : String)
    (h : o.createFolderId f.path = some id) :
    objGet (folderPhase o bs st).1.2 f.path = some id := by
  induction bs generalizing st with
  | nil => rcases hb with ⟨b, hbs, _⟩; cases hbs
  | cons b rest ih =>
    rcases hb with ⟨b2, hbs, hfb⟩
    rcases List.mem_cons.mp hbs with h1 | h1
    · subst h1
      simp only [folderPhase]
      exact folderPhase_keep o rest _ _ _ h
        (runFolderBatch_record o b2 st f hfb id h)
    · simp only [folderPhase]
      exact ih _ ⟨b2, h1, hfb⟩

theorem runFolderBatch_events (o : Oracle) (b : List VFolder)
    (st : (List (String × String)) × (List (String × String))) :
    ∀ e ∈ (runFolderBatch o b st).2, isCreatePhaseEv e := by
  induction b generalizing st with
  | nil => simp [runFolderBatch]
  | cons f rest ih =>
    intro e he
    rcases h : o.createFolderId f.path with _ | id
    · simp only [runFolderBatch, h, List.mem_cons] at he
      rcases he with rfl | rfl | he
      · exact Or.inl ⟨_, _, rfl⟩
      · exact Or.inr (Or.inr ⟨_, rfl⟩)
      · exact ih _ e he
    · simp only [runFolderBatch, h, List.mem_cons] at he
      rcases he with rfl | he
      · exact Or.inl ⟨_, _, rfl⟩
      · exact ih _ e he

theorem folderPhase_events (o : Oracle) (bs : List (List VFolder))
    (st : (List (String × String)) × (List (String × String))) :
    ∀ e ∈ (folderPhase o bs st).2, isCreatePhaseEv e := by
  induction bs generalizing st with
  | nil => simp [folderPhase]
  | cons b rest ih =>
    intro e he
    simp only [folderPhase, List.mem_append] at he
    rcases he with he | he
    · exact runFolderBatch_events o b st e he
    · exact ih _ e he

theorem runNotes_events (o : Oracle) (pti : List (String × String))
    (notes : List VFile) (dip : List (String × String)) :
    ∀ e ∈ (runNotes o pti notes dip).2, isCreatePhaseEv e := by
  induction notes generalizing dip with
  | nil => simp [runNotes]
  | cons n rest ih =>
    intro e he
    rcases h : o.uploadFileId n.path with _ | id
    · simp only [runNotes, h, List.mem_cons] at he
      rcases he with rfl | rfl | he
      · exact Or.inr (Or.inl ⟨_, _, rfl⟩)
      · exact Or.inr (Or.inr ⟨_, rfl⟩)
      · exact ih _ e he
    · simp only [runNotes, h, List.mem_cons] at he
      rcases he with rfl | he
      · exact Or.inr (Or.inl ⟨_, _, rfl⟩)
      · exact ih _ e he

theorem createPhase_events (o : Oracle) (v : Vault)
    (creates : List (String × Op)) (dip pti : List (String × String)) :
    ∀ e ∈ (createPhase o v creates dip pti).2, isCreatePhaseEv e := by
  intro e he
  by_cases h : creates.isEmpty
  · simp [createPhase, h] at he
  · simp only [createPhase, h, if_neg, Bool.false_eq_true, if_false,
      List.mem_append] at he
    rcases he with he | he
    · exact folderPhase_events o _ _ e he
    · exact runNotes_events o _ _ _ e he

theorem runNotes_upload_mem (o : Oracle) (pti : List (String × String))
    (notes : List VFile) (dip : List (String × String))
    (n : VFile) (h : n ∈ notes) :
    Event.uploadFileEv n.path (n.parentPath.bind (fun pp => objGet pti pp)) ∈
      (runNotes o pti notes dip).2 := by
  induction notes generalizing dip with
  | nil => cases h
  | cons m rest ih =>
    rcases List.mem_cons.mp h with h1 | h1
    · subst h1
      rcases hu : o.uploadFileId n.path with _ | id
      · simp [runNotes, hu]
      · simp [runNotes, hu]
    · rcases hu : o.uploadFileId m.path with _ | id
      · simp only [runNotes, hu, List.mem_cons]
        exact Or.inr (Or.inr (ih dip h1))
      · simp only [runNotes, hu, List.mem_cons]
        exact Or.inr (ih _ h1)

theorem runModifies_fst (o : Oracle) (pathToId : List (String × String))
    (files : List VFile) (dip : List (String × String)) :
    (runModifies o pathToId files dip).1 = dip := by
  induction files with
  | nil => simp [runModifies]
  | cons f rest ih =>
    rcases h : o.updateFileRes (objGet pathToId f.path) with _ | r
    · simp only [runModifies, h]
      exact ih
    · simp only [runModifies, h]
      exact ih

theorem runModifies_events (o : Oracle) (pathToId : List (String × String))
    (files : List VFile) (dip : List (String × String)) :
    ∀ e ∈ (runModifies o pathToId files dip).2, isModifyPhaseEv e := by
  induction files with
  | nil => simp [runModifies]
  | cons f rest ih =>
    intro e he
    rcases h : o.updateFileRes (objGet pathToId f.path) with _ | r
    · simp only [runModifies, h, List.mem_cons] at he
      rcases he with rfl | rfl | he
      · exact Or.inl ⟨_, rfl⟩
      · exact Or.inr ⟨_, rfl⟩
      · exact ih e he
    · simp only [runModifies, h, List.mem_cons] at he
      rcases he with rfl | he
      · exact Or.inl ⟨_, rfl⟩
      · exact ih e he

theorem runModifies_update_mem (o : Oracle) (pathToId : List (String × String))
    (files : List VFile) (dip : List (String × String))
    (f : VFile) (h : f ∈ files) :
    Event.updateFileEv (objGet pathToId f.path) ∈
      (runModifies o pathToId files dip).2 := by
  induction files with
  | nil => cases h
  | cons g rest ih =>
    rcases List.mem_cons.mp h with h1 | h1
    · subst h1
      rcases hu : o.updateFileRes (objGet pathToId f.path) with _ | r
      · simp [runModifies, hu]
      · simp [runModifies, hu]
    · rcases hu : o.updateFileRes (objGet pathToId g.path) with _ | r
      · simp only [runModifies, hu, List.mem_cons]
        exact Or.inr (Or.inr (ih h1))
      · simp only [runModifies, hu, List.mem_cons]
        exact Or.inr (ih h1)

theorem runFolderBatch_folder_events (o : Oracle) (b : List VFolder)
    (st : (List (String × String)) × (List (String × String))) :
    ∀ e ∈ (runFolderBatch o b st).2, isFolderStepEv e := by
  induction b generalizing st with
  | nil => simp [runFolderBatch]
  | cons f rest ih =>
    intro e he
    rcases h : o.createFolderId f.path with _ | id
    · simp only [runFolderBatch, h, List.mem_cons] at he
      rcases he with rfl | rfl | he
      · exact Or.inl ⟨_, _, rfl⟩
      · exact Or.inr rfl
      · exact ih _ e he
    · simp only [runFolderBatch, h, List.mem_cons] at he
      rcases he with rfl | he
      · exact Or.inl ⟨_, _, rfl⟩
      · exact ih _ e he

theorem folderPhase_folder_events (o : Oracle) (bs : List (List VFolder))
    (st : (List (String × String)) × (List (String × String))) :
    ∀ e ∈ (folderPhase o bs st).2, isFolderStepEv e := by
  induction bs generalizing st with
  | nil => simp [folderPhase]
  | cons b rest ih =>
    intro e he
    simp only [folderPhase, List.mem_append] at he
    rcases he with he | he
    · exact runFolderBatch_folder_events o b st e he
    · exact ih _ e he

theorem runNotes_upload_events (o : Oracle) (pti : List (String × String))
    (notes : List VFile) (dip : List (String × String)) :
    ∀ e ∈ (runNotes o pti notes dip).2, isUploadStepEv e := by
  induction notes generalizing dip with
  | nil => simp [runNotes]
  | cons n rest ih =>
    intro e he
    rcases h : o.uploadFileId n.path with _ | id
    · simp only [runNotes, h, List.mem_cons] at he
      rcases he with rfl | rfl | he
      · exact Or.inl ⟨_, _, rfl⟩
      · exact Or.inr rfl
      · exact ih _ e he
    · simp only [runNotes, h, List.mem_cons] at he
      rcases he with rfl | he
      · exact Or.inl ⟨_, _, rfl⟩
      · exact ih _ e he

theorem modifyPhase_events (o : Oracle) (v : Vault)
    (modifies : List (String × Op)) (dip : List (String × String)) :
    ∀ e ∈ (modifyPhase o v modifies dip).2, isModifyPhaseEv e := by
  unfold modifyPhase
  exact runModifies_events o _ _ dip

theorem vfoldersOf_filter (v : Vault) (l : List (String × Op)) :
    vfoldersOf v ((l.filter (fun c => (Vault.lookup v c.1).isSome)).map Prod.fst) =
      vfoldersOf v (l.map Prod.fst) := by
  induction l with
  | nil => rfl
  | cons c rest ih =>
    rcases hl : Vault.lookup v c.1 with _ | node
    · simp only [List.filter_cons, hl, Option.isSome_none, Bool.false_eq_true,
        if_false, List.map_cons, vfoldersOf, ih]
    · rcases node with name | name
      · simp only [List.filter_cons, hl, Option.isSome_some, if_true,
          List.map_cons, vfoldersOf, hl, ih]
      · simp only [List.filter_cons, hl, Option.isSome_some, if_true,
          List.map_cons, vfoldersOf, hl, ih]

theorem vfilesOf_filter (v : Vault) (l : List (String × Op)) :
    vfilesOf v ((l.filter (fun c => (Vault.lookup v c.1).isSome)).map Prod.fst) =
      vfilesOf v (l.map Prod.fst) := by
  induction l with
  | nil => rfl
  | cons c rest ih =>
    rcases hl : Vault.lookup v c.1 with _ | node
    · simp only [List.filter_cons, hl, Option.isSome_none, Bool.false_eq_true,
        if_false, List.map_cons, vfilesOf, ih]
    · rcases node with name | name
      · simp only [List.filter_cons, hl, Option.isSome_some, if_true,
          List.map_cons, vfilesOf, hl, ih]
      · simp only [List.filter_cons, hl, Option.isSome_some, if_true,
          List.map_cons, vfilesOf, hl, ih]

/-- C10: the modify phase never mutates the Remote Identity Index: for
every oracle outcome, vault and journal, the id-to-path map returned by
the modify phase equals the one passed in, regardless of how many update
calls succeed or fail. -/
theorem claim10_thm (o : Oracle) (v : Vault) (modifies : List (String × Op))
    (dip : List (String × String)) :
    (modifyPhase o v modifies dip).1 = dip := by
  unfold modifyPhase
  exact runModifies_fst o _ _ dip

/-- C8: a journaled path that no longer exists locally when its phase acts
on it is skipped as a no-op while the remaining paths are still processed:
the create phase and the modify phase behave identically on the journal
and on the journal restricted to locally present paths, and the
undo-of-create handler does nothing when the file is absent. -/
theorem claim8_thm :
    (∀ (o : Oracle) (v : Vault) (creates : List (String × Op))
       (dip pti : List (String × String)),
      createPhase o v creates dip pti =
        createPhase o v
          (creates.filter (fun c => (Vault.lookup v c.1).isSome)) dip pti)
    ∧ (∀ (o : Oracle) (v : Vault) (modifies : List (String × Op))
         (dip : List (String × String)),
        modifyPhase o v modifies dip =
          modifyPhase o v
            (modifies.filter (fun m => (Vault.lookup v m.1).isSome)) dip)
    ∧ (∀ (v : Vault) (p : String), Vault.lookup v p = none →
        handleCreate v p = []) := by
  refine ⟨?_, ?_, ?_⟩
  · intro o v cr dip pti
    by_cases h1 : cr.isEmpty
    · rw [List.isEmpty_iff.mp h1]
      rfl
    · by_cases h2 : (cr.filter (fun c => (Vault.lookup v c.1).isSome)).isEmpty
      · have hfo : vfoldersOf v (cr.map Prod.fst) = [] := by
          rw [← vfoldersOf_filter, List.isEmpty_iff.mp h2]
          rfl
        have hfi : vfilesOf v (cr.map Prod.fst) = [] := by
          rw [← vfilesOf_filter, List.isEmpty_iff.mp h2]
          rfl
        simp only [createPhase, h1, h2, Bool.false_eq_true, if_false, if_true,
          hfo, hfi]
        simp [foldersToBatches, maxUnder, folderPhase, runFolderBatch, runNotes]
      · simp only [createPhase, h1, h2, Bool.false_eq_true, if_false]
        rw [vfoldersOf_filter, vfilesOf_filter]
  · intro o v ms dip
    unfold modifyPhase
    rw [vfilesOf_filter]
  · intro v p h
    simp [handleCreate, h]

/-- C8 witness: the undo-of-create handler is a no-op on the concrete
vault that does not contain the path. -/
theorem claim8_witness : handleCreate vaultA "ghost.md" = [] :=
  claim8_thm.2.2 vaultA "ghost.md" rfl

/-- C3: the claim is right and the code is wrong.  On the concrete run the
journal holds one delete of `a.md`, the bulk delete request is issued for
its resolved id `id1` and succeeds, the run completes and clears the
journal — yet the Remote Identity Index still holds the entry
`id1 ↦ a.md`, because line 175 of push.ts deletes the key `a.md` from the
id-keyed map. -/
theorem claim3_thm :
    stateDelA.settings.operations = [("a.md", Op.delete)]
    ∧ oracleOK.batchDeleteOk = true
    ∧ Event.batchDeleteEv [some "id1"] ∈ (push oracleOK vaultEmpty stateDelA).events
    ∧ (push oracleOK vaultEmpty stateDelA).state.settings.operations = []
    ∧ (push oracleOK vaultEmpty stateDelA).state.settings.driveIdToPath =
        [("id1", "a.md")] := by
  refine ⟨rfl, rfl, ?_, ?_, ?_⟩
  · decide
  · decide
  · decide

/-- C5: the claim is right and the code is wrong.  On the concrete undo
batch over the single path `dir`, the fetched remote object carries the
container MIME type, yet `handleDelete` recreates no local folder: it
classifies by comparing `properties.path` with `folderMimeType` (push.ts
line 69), so `dir` lands among the files, its remote content is fetched
and it is recreated as a local file. -/
theorem claim5_thm :
    (oracleUndoDir.searchByPaths ["dir"]).map (fun fs => fs.map RemoteFile.mimeType)
      = some [folderMimeType]
    ∧ handleDelete oracleUndoDir settingsUndoDir ["dir"] =
        [Event.searchPathsEv ["dir"], Event.fetchContentEv (some "fid"),
         Event.localCreateFileEv "dir" (some "folder-bytes") (some "T1")] := by
  refine ⟨rfl, ?_⟩
  decide

/-- C1 counterexample: a run in which every remote update call fails —
including the final persist of the settings blob, whose id resolves to
nothing and whose result push.ts never checks — still ends with the
Change Journal cleared, not with the journal it held at the start. -/
theorem claim1_counterexample :
    stateModA.settings.operations = [("a.md", Op.modify)]
    ∧ oracleUpdateFail.updateFileRes (some "idA") = none
    ∧ oracleUpdateFail.updateFileRes none = none
    ∧ Event.noticeEv "Error modifying file." ∈
        (push oracleUpdateFail vaultA stateModA).events
    ∧ (push oracleUpdateFail vaultA stateModA).state.settings.operations = [] := by
  refine ⟨rfl, rfl, rfl, ?_, ?_⟩
  · decide
  · decide

/-- C1 as amended: the Change Journal is cleared at the end of every run
that reaches the persist step, regardless of whether the persist call or
any individual batched create/upload/update action succeeded; only the
early aborts — a failed config search, or a nonempty delete set whose bulk
delete fails — leave the Journal holding its initial entries. -/
theorem postPull_operations (o : Oracle) (s : Settings) :
    (postPull o s).operations = s.operations := rfl

theorem claim1_thm (o : Oracle) (v : Vault) (t : PluginState) :
    (push o v t).state.settings.operations =
      (if t.syncing then t.settings.operations
       else if abortsEarly o v (postPull o t.settings) then t.settings.operations
       else []) := by
  by_cases hs : t.syncing
  · simp [push, hs]
  · rcases hc : o.configSearch with _ | cfg
    · simp [push, hs, hc, abortsEarly, postPull_operations]
    · by_cases hd : (allDeletes v (postPull o t.settings) cfg).isEmpty
      · simp [push, pushRest, hs, hc, hd, abortsEarly]
      · by_cases hb : o.batchDeleteOk
        · simp [push, pushRest, hs, hc, hd, hb, abortsEarly]
        · simp [push, hs, hc, hd, hb, abortsEarly, postPull_operations]

/-- C2 counterexample: a run that starts its session and then hits a
failed config search returns with the syncing flag still set, blocking
every subsequent push invocation. -/
theorem claim2_counterexample :
    stateModA.syncing = false
    ∧ (push oracleNoCfg vaultA stateModA).state.syncing = true := by
  refine ⟨rfl, ?_⟩
  decide

/-- C2 as amended: a run that starts its session clears the syncing flag
exactly when it does not abort early; the two early aborts — a failed
config search and a failed bulk delete of a nonempty delete set — return
with the flag still set. -/
theorem claim2_thm (o : Oracle) (v : Vault) (t : PluginState)
    (h : t.syncing = false) :
    (push o v t).state.syncing = abortsEarly o v (postPull o t.settings) := by
  rcases hc : o.configSearch with _ | cfg
  · simp [push, h, hc, abortsEarly]
  · by_cases hd : (allDeletes v (postPull o t.settings) cfg).isEmpty
    · simp [push, pushRest, h, hc, hd, abortsEarly]
    · by_cases hb : o.batchDeleteOk
      · simp [push, pushRest, h, hc, hd, hb, abortsEarly]
      · simp [push, h, hc, hd, hb, abortsEarly]

/-- C2 witness: on a concrete completing run the amended theorem applies
and the flag ends cleared. -/
theorem claim2_witness : (push oracleOK vaultA stateModA).state.syncing = false :=
  (claim2_thm oracleOK vaultA stateModA rfl).trans (by decide)

/-- C4 counterexample: the journal holds a delete of `b.md` that the Index
cannot resolve; the run does not abort before the remote call — the bulk
delete request is issued with the unresolved id (`none`) in its id list —
and the run completes, clearing the Journal. -/
theorem claim4_counterexample :
    stateDelUnresolved.settings.operations = [("b.md", Op.delete)]
    ∧ stateDelUnresolved.settings.driveIdToPath = []
    ∧ Event.batchDeleteEv [none] ∈
        (push oracleOK vaultEmpty stateDelUnresolved).events
    ∧ (push oracleOK vaultEmpty stateDelUnresolved).state.settings.operations
        = [] := by
  refine ⟨rfl, rfl, ?_, ?_⟩
  · decide
  · decide

/-- C4 as amended: the push performs no inconsistent-index check.  A
delete or modify path that fails to resolve to a remote id does not abort
the run and raises no notice of its own: the bulk delete request is issued
immediately after the config search with exactly the unchecked resolution
of every delete path (unresolved paths contributing `none`), and every
file in the modify phase has its update call issued with whatever the
path-to-id lookup returned, `none` included. -/
theorem claim4_thm :
    (∀ (o : Oracle) (v : Vault) (t : PluginState) (cfg : List String),
      t.syncing = false → o.configSearch = some cfg →
      (allDeletes v (postPull o t.settings) cfg).isEmpty = false →
      ∃ rest, (push o v t).events =
        Event.pullEv :: Event.searchConfigEv ::
          Event.batchDeleteEv
            ((allDeletes v (postPull o t.settings) cfg).map
              (fun d => objGet (pathsToIdsOf (postPull o t.settings)) d.1)) ::
          rest)
    ∧ (∀ (o : Oracle) (pathToId : List (String × String)) (files : List VFile)
        (dip : List (String × String)) (f : VFile), f ∈ files →
        Event.updateFileEv (objGet pathToId f.path) ∈
          (runModifies o pathToId files dip).2) := by
  constructor
  · intro o v t cfg hs hc hd
    by_cases hb : o.batchDeleteOk
    · have hpush : push o v t =
          pushRest o v (postPull o t.settings).operations
            ((allDeletes v (postPull o t.settings) cfg).foldl
              (fun m d => objDel m d.1) (postPull o t.settings).driveIdToPath)
            (pathsToIdsOf (postPull o t.settings))
            [Event.batchDeleteEv
              ((allDeletes v (postPull o t.settings) cfg).map
                (fun d => objGet (pathsToIdsOf (postPull o t.settings)) d.1))] := by
        simp [push, hs, hc, hd, hb]
      rw [hpush]
      exact ⟨_, rfl⟩
    · have hpush : (push o v t).events =
          [Event.pullEv, Event.searchConfigEv,
           Event.batchDeleteEv
             ((allDeletes v (postPull o t.settings) cfg).map
               (fun d => objGet (pathsToIdsOf (postPull o t.settings)) d.1)),
           Event.noticeEv "An error occurred deleting Google Drive files."] := by
        simp [push, hs, hc, hd, hb]
      rw [hpush]
      exact ⟨_, rfl⟩
  · intro o pathToId files dip f hf
    exact runModifies_update_mem o pathToId files dip f hf

/-- C4 witness: the amended theorem applied to the concrete unresolved
delete, where the issued id list evaluates to `[none]`. -/
theorem claim4_witness :
    ∃ rest, (push oracleOK vaultEmpty stateDelUnresolved).events =
      Event.pullEv :: Event.searchConfigEv ::
        Event.batchDeleteEv
          ((allDeletes vaultEmpty (postPull oracleOK stateDelUnresolved.settings) []).map
            (fun d => objGet (pathsToIdsOf (postPull oracleOK stateDelUnresolved.settings)) d.1)) ::
        rest :=
  claim4_thm.1 oracleOK vaultEmpty stateDelUnresolved [] rfl rfl (by decide)

theorem mem_of_mem_batch {fs : List VFolder} {b : List VFolder}
    (hb : b ∈ foldersToBatches fs) {g : VFolder} (hg : g ∈ b) : g ∈ fs := by
  unfold foldersToBatches at hb
  rcases List.mem_map.mp hb with ⟨i, _, rfl⟩
  exact (List.mem_filter.mp hg).1

theorem runFolderBatch_dip_keep (o : Oracle) (F : List VFolder)
    (hinj : ∀ f2 ∈ F, ∀ g2 ∈ F, ∀ id2, o.createFolderId f2.path = some id2 →
      o.createFolderId g2.path = some id2 → f2.path = g2.path)
    (b : List VFolder) (hcov : ∀ g ∈ b, g ∈ F)
    (st : (List (String × String)) × (List (String × String)))
    (f : VFolder) (hf : f ∈ F) (id : String)
    (hid : o.createFolderId f.path = some id)
    (hst : objGet st.1 id = some f.path) :
    objGet (runFolderBatch o b st).1.1 id = some f.path := by
  induction b generalizing st with
  | nil => simpa [runFolderBatch] using hst
  | cons g rest ih =>
    have hgF : g ∈ F := hcov g (List.mem_cons_self g rest)
    have hcov2 : ∀ x ∈ rest, x ∈ F := fun x hx => hcov x (List.mem_cons_of_mem g hx)
    rcases hg : o.createFolderId g.path with _ | id2
    · simp only [runFolderBatch, hg]
      exact ih hcov2 st hst
    · simp only [runFolderBatch, hg]
      apply ih hcov2
      by_cases hii : id2 = id
      · subst hii
        have hpq : g.path = f.path := hinj g hgF f hf id2 hg hid
        rw [objGet_objSet_self]
        rw [hpq]
      · rw [objGet_objSet_ne _ _ _ _ (fun e => hii e.symm)]
        exact hst

theorem runFolderBatch_dip_record (o : Oracle) (F : List VFolder)
    (hinj : ∀ f2 ∈ F, ∀ g2 ∈ F, ∀ id2, o.createFolderId f2.path = some id2 →
      o.createFolderId g2.path = some id2 → f2.path = g2.path)
    (b : List VFolder) (hcov : ∀ g ∈ b, g ∈ F)
    (st : (List (String × String)) × (List (String × String)))
    (f : VFolder) (hfb : f ∈ b) (id : String)
    (hid : o.createFolderId f.path = some id) :
    objGet (runFolderBatch o b st).1.1 id = some f.path := by
  induction b generalizing st with
  | nil => cases hfb
  | cons g rest ih =>
    have hcov2 : ∀ x ∈ rest, x ∈ F := fun x hx => hcov x (List.mem_cons_of_mem g hx)
    rcases List.mem_cons.mp hfb with h1 | h1
    · subst h1
      simp only [runFolderBatch, hid]
      exact runFolderBatch_dip_keep o F hinj rest hcov2 _ f
        (hcov f (List.mem_cons_self f rest)) id hid (objGet_objSet_self _ _ _)
    · rcases hg : o.createFolderId g.path with _ | id2
      · simp only [runFolderBatch, hg]
        exact ih hcov2 st h1
      · simp only [runFolderBatch, hg]
        exact ih hcov2 _ h1

theorem folderPhase_dip_keep (o : Oracle) (F : List VFolder)
    (hinj : ∀ f2 ∈ F, ∀ g2 ∈ F, ∀ id2, o.createFolderId f2.path = some id2 →
      o.createFolderId g2.path = some id2 → f2.path = g2.path)
    (bs : List (List VFolder)) (hcov : ∀ b ∈ bs, ∀ g ∈ b, g ∈ F)
    (st : (List (String × String)) × (List (String × String)))
    (f : VFolder) (hf : f ∈ F) (id : String)
    (hid : o.createFolderId f.path = some id)
    (hst : objGet st.1 id = some f.path) :
    objGet (folderPhase o bs st).1.1 id = some f.path := by
  induction bs generalizing st with
  | nil => simpa [folderPhase] using hst
  | cons b rest ih =>
    have hcov2 : ∀ b2 ∈ rest, ∀ g ∈ b2, g ∈ F :=
      fun b2 hb2 => hcov b2 (List.mem_cons_of_mem b hb2)
    simp only [folderPhase]
    exact ih hcov2 _
      (runFolderBatch_dip_keep o F hinj b (hcov b (List.mem_cons_self b rest))
        st f hf id hid hst)

theorem folderPhase_dip_record (o : Oracle) (F : List VFolder)
    (hinj : ∀ f2 ∈ F, ∀ g2 ∈ F, ∀ id2, o.createFolderId f2.path = some id2 →
      o.createFolderId g2.path = some id2 → f2.path = g2.path)
    (bs : List (List VFolder)) (hcov : ∀ b ∈ bs, ∀ g ∈ b, g ∈ F)
    (st : (List (String × String)) × (List (String × String)))
    (f : VFolder) (hb : ∃ b, b ∈ bs ∧ f ∈ b) (id : String)
    (hid : o.createFolderId f.path = some id) :
    objGet (folderPhase o bs st).1.1 id = some f.path := by
  induction bs generalizing st with
  | nil => rcases hb with ⟨b, hbs, _⟩; cases hbs
  | cons b rest ih =>
    have hcov2 : ∀ b2 ∈ rest, ∀ g ∈ b2, g ∈ F :=
      fun b2 hb2 => hcov b2 (List.mem_cons_of_mem b hb2)
    rcases hb with ⟨b2, hbs, hfb⟩
    rcases List.mem_cons.mp hbs with h1 | h1
    · subst h1
      simp only [folderPhase]
      refine folderPhase_dip_keep o F hinj rest hcov2 _ f ?_ id hid
        (runFolderBatch_dip_record o F hinj b2
          (hcov b2 (List.mem_cons_self b2 rest)) st f hfb id hid)
      exact hcov b2 (List.mem_cons_self b2 rest) f hfb
    · simp only [folderPhase]
      exact ih hcov2 _ ⟨b2, h1, hfb⟩

/-- C6: in the create phase, batch i of the Hierarchy Batcher holds exactly
the containers at relative depth i (root-most first) and batches execute
strictly sequentially; every container the oracle creates successfully has
its id recorded in the path-to-id lookup that the leaf uploads read, and —
provided the remote store issues distinct ids for distinct paths, as a real
remote does — its id-to-path entry recorded in the Remote Identity Index
threaded through the batches (push.ts line 210), the very state the leaf
uploads start from; every upload event of every leaf carries the parent id
looked up in that final, post-all-batches map, which is exactly the
path-to-id map the create phase returns; and the phase trace is all
container events followed by all leaf events. -/
theorem claim6_thm (o : Oracle) (v : Vault) (creates : List (String × Op))
    (dip pti : List (String × String)) :
    (∀ i b, (foldersToBatches (vfoldersOf v (creates.map Prod.fst)))[i]? = some b →
      ∀ f ∈ b, relDepth (vfoldersOf v (creates.map Prod.fst)) f = i)
    ∧ (∀ f ∈ vfoldersOf v (creates.map Prod.fst), ∀ id,
        o.createFolderId f.path = some id →
        objGet (createPhase o v creates dip pti).1.2 f.path = some id)
    ∧ (∀ n ∈ vfilesOf v (creates.map Prod.fst),
        Event.uploadFileEv n.path
          (n.parentPath.bind (fun pp =>
            objGet (createPhase o v creates dip pti).1.2 pp)) ∈
          (createPhase o v creates dip pti).2)
    ∧ (∃ fEvs nEvs, (createPhase o v creates dip pti).2 = fEvs ++ nEvs
        ∧ (∀ e ∈ fEvs, isFolderStepEv e) ∧ (∀ e ∈ nEvs, isUploadStepEv e))
    ∧ (∀ f ∈ vfoldersOf v (creates.map Prod.fst), ∀ id,
        o.createFolderId f.path = some id →
        (∀ f2 ∈ vfoldersOf v (creates.map Prod.fst),
         ∀ g2 ∈ vfoldersOf v (creates.map Prod.fst), ∀ id2,
          o.createFolderId f2.path = some id2 →
          o.createFolderId g2.path = some id2 → f2.path = g2.path) →
        objGet (folderPhase o
          (foldersToBatches (vfoldersOf v (creates.map Prod.fst)))
          (dip, pti)).1.1 id = some f.path)
    ∧ (creates.isEmpty = false →
        (createPhase o v creates dip pti).1.2 =
          (folderPhase o (foldersToBatches (vfoldersOf v (creates.map Prod.fst)))
            (dip, pti)).1.2) := by
  by_cases hcr : creates.isEmpty
  · have hnil : creates = [] := List.isEmpty_iff.mp hcr
    subst hnil
    refine ⟨?_, ?_, ?_, ⟨[], [], rfl, by simp, by simp⟩, ?_, ?_⟩
    · intro i b hb f hf
      have h0 : foldersToBatches (vfoldersOf v (([] : List (String × Op)).map Prod.fst))
          = [[]] := rfl
      rw [h0] at hb
      rcases i with _ | i
      · simp only [List.getElem?_cons_zero, Option.some.injEq] at hb
        subst hb
        cases hf
      · simp at hb
    · intro f hf
      simp [vfoldersOf] at hf
    · intro n hn
      simp [vfilesOf] at hn
    · intro f hf
      simp [vfoldersOf] at hf
    · intro h
      simp at h
  · refine ⟨?_, ?_, ?_, ?_, ?_, ?_⟩
    · intro i b hb f hf
      exact relDepth_of_mem_batch hb hf
    · intro f hf id hid
      simp only [createPhase, hcr, Bool.false_eq_true, if_false]
      exact folderPhase_record o _ _ f (exists_batch_of_mem hf) id hid
    · intro n hn
      simp only [createPhase, hcr, Bool.false_eq_true, if_false]
      exact List.mem_append.mpr (Or.inr (runNotes_upload_mem o _ _ _ n hn))
    · simp only [createPhase, hcr, Bool.false_eq_true, if_false]
      exact ⟨_, _, rfl, folderPhase_folder_events o _ _, runNotes_upload_events o _ _ _⟩
    · intro f hf id hid hinj
      exact folderPhase_dip_record o (vfoldersOf v (creates.map Prod.fst)) hinj
        (foldersToBatches (vfoldersOf v (creates.map Prod.fst)))
        (fun b hb g hg => mem_of_mem_batch hb hg)
        (dip, pti) f (exists_batch_of_mem hf) id hid
    · intro hcr2
      simp only [createPhase, hcr, Bool.false_eq_true, if_false]

/-- C6 witness: on the concrete run creating `dir` and `dir/n.md`, the
container id `fid-dir` is recorded in the path-to-id map the leaf upload
reads and as `fid-dir ↦ dir` in the Remote Identity Index threaded through
the batches, and the upload event of the leaf carries exactly that
recorded parent id. -/
theorem claim6_witness :
    objGet (createPhase oracleOK vaultDir
        [("dir", Op.create), ("dir/n.md", Op.create)] [] []).1.2 "dir"
      = some "fid-dir"
    ∧ Event.uploadFileEv "dir/n.md" (some "fid-dir") ∈
        (createPhase oracleOK vaultDir
          [("dir", Op.create), ("dir/n.md", Op.create)] [] []).2
    ∧ objGet (folderPhase oracleOK
        (foldersToBatches (vfoldersOf vaultDir
          ([("dir", Op.create), ("dir/n.md", Op.create)].map Prod.fst)))
        ([], [])).1.1 "fid-dir" = some "dir" := by
  have h := claim6_thm oracleOK vaultDir
    [("dir", Op.create), ("dir/n.md", Op.create)] [] []
  have h1 : objGet (createPhase oracleOK vaultDir
      [("dir", Op.create), ("dir/n.md", Op.create)] [] []).1.2 "dir"
      = some "fid-dir" :=
    h.2.1 ⟨"dir", "dir", none⟩ (by decide) "fid-dir" rfl
  refine ⟨h1, ?_, ?_⟩
  · have h2 := h.2.2.1 ⟨"dir/n.md", "n.md", some "dir", "body-n"⟩ (by decide)
    simpa [h1] using h2
  · refine h.2.2.2.2.1 ⟨"dir", "dir", none⟩ (by decide) "fid-dir" rfl ?_
    have hlist : vfoldersOf vaultDir
        ([("dir", Op.create), ("dir/n.md", Op.create)].map Prod.fst)
        = [⟨"dir", "dir", none⟩] := by decide
    intro f2 hf2 g2 hg2 id2 hi1 hi2
    rw [hlist] at hf2 hg2
    rw [List.mem_singleton.mp hf2, List.mem_singleton.mp hg2]

/-- Helper for C7: the tail of a completed run decomposes into the four
phase segments, each emitting only its own event kinds. -/
theorem pushRest_decomp (o : Oracle) (v : Vault) (ops : List (String × Op))
    (dip pti : List (String × String)) (dEvs : List Event)
    (hdE : ∀ e ∈ dEvs, isDeletePhaseEv e) :
    ∃ a b c d, (pushRest o v ops dip pti dEvs).events =
        Event.pullEv :: Event.searchConfigEv :: (a ++ (b ++ (c ++ d)))
      ∧ (∀ e ∈ a, isDeletePhaseEv e) ∧ (∀ e ∈ b, isCreatePhaseEv e)
      ∧ (∀ e ∈ c, isModifyPhaseEv e) ∧ (∀ e ∈ d, isPersistPhaseEv e) := by
  refine ⟨dEvs,
    (createPhase o v (ops.filter (fun p => p.2 == Op.create)) dip pti).2,
    (modifyPhase o v (ops.filter (fun p => p.2 == Op.modify))
      (createPhase o v (ops.filter (fun p => p.2 == Op.create)) dip pti).1.1).2,
    [Event.persistEv
      (objGet (createPhase o v (ops.filter (fun p => p.2 == Op.create)) dip pti).1.2
        (v.configDir ++ "/plugins/google-drive-sync/data.json"))
      ⟨(modifyPhase o v (ops.filter (fun p => p.2 == Op.modify))
          (createPhase o v (ops.filter (fun p => p.2 == Op.create)) dip pti).1.1).1,
        ops⟩,
     Event.noticeEv "Sync complete!"],
    rfl, hdE, createPhase_events o v _ dip pti, modifyPhase_events o v _ _, ?_⟩
  intro e he
  simp only [List.mem_cons, List.not_mem_nil, or_false] at he
  rcases he with rfl | rfl
  · exact Or.inl ⟨_, _, rfl⟩
  · exact Or.inr ⟨_, rfl⟩

/-- C7: the trace of every run is the pull-merge precondition first, then the
config search, then four consecutive segments that can only hold
delete-phase, create-phase, modify-phase and persist-step events, in that
order (a run blocked by the session flag has an empty trace). -/
theorem claim7_thm (o : Oracle) (v : Vault) (t : PluginState) :
    (push o v t).events = [] ∨
    ∃ a b c d, (push o v t).events =
        Event.pullEv :: Event.searchConfigEv :: (a ++ (b ++ (c ++ d)))
      ∧ (∀ e ∈ a, isDeletePhaseEv e) ∧ (∀ e ∈ b, isCreatePhaseEv e)
      ∧ (∀ e ∈ c, isModifyPhaseEv e) ∧ (∀ e ∈ d, isPersistPhaseEv e) := by
  by_cases hs : t.syncing
  · left
    simp [push, hs]
  · right
    rcases hc : o.configSearch with _ | cfg
    · refine ⟨[Event.noticeEv "An error occurred fetching Google Drive files."],
        [], [], [], by simp [push, hs, hc], ?_, by simp, by simp, by simp⟩
      intro e he
      simp only [List.mem_singleton] at he
      subst he
      exact Or.inr (Or.inr ⟨_, rfl⟩)
    · by_cases hd : (allDeletes v (postPull o t.settings) cfg).isEmpty
      · have hpush : push o v t =
            pushRest o v (postPull o t.settings).operations
              (postPull o t.settings).driveIdToPath
              (pathsToIdsOf (postPull o t.settings)) [] := by
          simp [push, hs, hc, hd]
        rw [hpush]
        exact pushRest_decomp o v _ _ _ [] (by simp)
      · by_cases hb : o.batchDeleteOk
        · have hpush : push o v t =
              pushRest o v (postPull o t.settings).operations
                ((allDeletes v (postPull o t.settings) cfg).foldl
                  (fun m d => objDel m d.1) (postPull o t.settings).driveIdToPath)
                (pathsToIdsOf (postPull o t.settings))
                [Event.batchDeleteEv
                  ((allDeletes v (postPull o t.settings) cfg).map
                    (fun d => objGet (pathsToIdsOf (postPull o t.settings)) d.1))] := by
            simp [push, hs, hc, hd, hb]
          rw [hpush]
          refine pushRest_decomp o v _ _ _ _ ?_
          intro e he
          simp only [List.mem_singleton] at he
          subst he
          exact Or.inr (Or.inl ⟨_, rfl⟩)
        · refine ⟨[Event.batchDeleteEv
              ((allDeletes v (postPull o t.settings) cfg).map
                (fun d => objGet (pathsToIdsOf (postPull o t.settings)) d.1)),
              Event.noticeEv "An error occurred deleting Google Drive files."],
            [], [], [], by simp [push, hs, hc, hd, hb], ?_, by simp, by simp,
            by simp⟩
          intro e he
          simp only [List.mem_cons, List.not_mem_nil, or_false] at he
          rcases he with rfl | rfl
          · exact Or.inr (Or.inl ⟨_, rfl⟩)
          · exact Or.inr (Or.inr ⟨_, rfl⟩)

/-- C7 witness: the decomposition applied to a concrete completing run. -/
theorem claim7_witness :
    (push oracleOK vaultDir stateCreateDir).events = [] ∨
    ∃ a b c d, (push oracleOK vaultDir stateCreateDir).events =
        Event.pullEv :: Event.searchConfigEv :: (a ++ (b ++ (c ++ d)))
      ∧ (∀ e ∈ a, isDeletePhaseEv e) ∧ (∀ e ∈ b, isCreatePhaseEv e)
      ∧ (∀ e ∈ c, isModifyPhaseEv e) ∧ (∀ e ∈ d, isPersistPhaseEv e) :=
  claim7_thm oracleOK vaultDir stateCreateDir

/-- A create-phase event is never the persist call. -/
theorem isCreatePhaseEv_no_persist {e : Event} (h : isCreatePhaseEv e)
    (pid : Option String) (s : Settings) : e ≠ Event.persistEv pid s := by
  rcases h with ⟨p, q, rfl⟩ | ⟨p, q, rfl⟩ | ⟨m, rfl⟩ <;> simp

/-- A modify-phase event is never the persist call. -/
theorem isModifyPhaseEv_no_persist {e : Event} (h : isModifyPhaseEv e)
    (pid : Option String) (s : Settings) : e ≠ Event.persistEv pid s := by
  rcases h with ⟨i, rfl⟩ | ⟨m, rfl⟩ <;> simp

/-- Helper for C9: in the tail of a completed run, the persist event can
only be the one the run itself emits, whose settings payload carries the
journal of the run untouched. -/
theorem persist_ops_of_mem_pushRest (o : Oracle) (v : Vault)
    (ops : List (String × Op)) (dip pti : List (String × String))
    (dEvs : List Event)
    (hdE : ∀ e ∈ dEvs, ∀ pid2 s2, e ≠ Event.persistEv pid2 s2)
    {pid : Option String} {s : Settings}
    (h : Event.persistEv pid s ∈ (pushRest o v ops dip pti dEvs).events) :
    s.operations = ops := by
  simp only [pushRest, List.mem_cons, List.mem_append] at h
  rcases h with h | h | h | h
  · cases h
  · cases h
  · exact absurd rfl (hdE _ h pid s)
  · rcases h with h | h
    · exact absurd rfl
        (isCreatePhaseEv_no_persist (createPhase_events o v _ _ _ _ h) pid s)
    · rcases h with h | h
      · exact absurd rfl
          (isModifyPhaseEv_no_persist (modifyPhase_events o v _ _ _ h) pid s)
      · simp only [List.mem_cons, List.not_mem_nil, or_false] at h
        rcases h with h | h
        · injection h with h1 h2
          rw [h2]
        · cases h

/-- C9: whenever a run emits the persist call, the settings blob it
serializes still carries the full pre-push Change Journal: the journal is
cleared only after the serialization, so the remote snapshot never
reflects an emptied journal. -/
theorem claim9_thm (o : Oracle) (v : Vault) (t : PluginState)
    (pid : Option String) (s : Settings)
    (h : Event.persistEv pid s ∈ (push o v t).events) :
    s.operations = t.settings.operations := by
  by_cases hs : t.syncing
  · simp [push, hs] at h
  · rcases hc : o.configSearch with _ | cfg
    · simp [push, hs, hc] at h
    · by_cases hd : (allDeletes v (postPull o t.settings) cfg).isEmpty
      · have hpush : push o v t =
            pushRest o v (postPull o t.settings).operations
              (postPull o t.settings).driveIdToPath
              (pathsToIdsOf (postPull o t.settings)) [] := by
          simp [push, hs, hc, hd]
        rw [hpush] at h
        exact persist_ops_of_mem_pushRest o v _ _ _ [] (by simp) h
      · by_cases hb : o.batchDeleteOk
        · have hpush : push o v t =
              pushRest o v (postPull o t.settings).operations
                ((allDeletes v (postPull o t.settings) cfg).foldl
                  (fun m d => objDel m d.1) (postPull o t.settings).driveIdToPath)
                (pathsToIdsOf (postPull o t.settings))
                [Event.batchDeleteEv
                  ((allDeletes v (postPull o t.settings) cfg).map
                    (fun d => objGet (pathsToIdsOf (postPull o t.settings)) d.1))] := by
            simp [push, hs, hc, hd, hb]
          rw [hpush] at h
          refine persist_ops_of_mem_pushRest o v _ _ _ _ ?_ h
          intro e he pid2 s2
          simp only [List.mem_singleton] at he
          subst he
          simp
        · simp [push, hs, hc, hd, hb] at h

/-- C9 witness: on the concrete run whose every update call fails, the
persisted settings payload still carries the pre-push journal. -/
theorem claim9_witness :
    (Settings.mk [("idA", "a.md")] [("a.md", Op.modify)]).operations =
      stateModA.settings.operations :=
  claim9_thm oracleUpdateFail vaultA stateModA none
    ⟨[("idA", "a.md")], [("a.md", Op.modify)]⟩ (by decide)

end GDrive
